import Mathlib

/-!
Verification of the pay-equity analysis implemented by `analyze_pay_equity`
in `src/Testing.py`.

The embedding models a pandas DataFrame row as a `Record` and the DataFrame
as a `List Record` in row order.  Pandas specifics that matter are modelled
explicitly:

* `pd.to_numeric(col, errors="coerce")` turns a non-numeric cell into NaN
  (`CompVal.nan`); numeric cells are modelled as already carrying their
  numeric value (`CompVal.num`).
* every comparison (`>`, `<=`) involving NaN is False;
  arithmetic involving NaN yields NaN.
* `sort_values(by=comp, ascending=False)` sorts descending with NaN last
  (`na_position="last"`); ties are modelled as keeping input order
  (insertion sort).  The tie order of the pandas default quicksort kind is
  not actually specified; no theorem below depends on the tie order.
* `groupby(["Job Code", "Department Code"], dropna=False, sort=True)`
  partitions rows by the key pair, keys sorted ascending with missing keys
  last, rows inside a group in input order.
* `Series.unique()` deduplicates keeping the first occurrence of each value.
* `reset_index(drop=True)` replaces a group's index by `0..len-1`, and
  `pd.concat(results).sort_index()` stably sorts the concatenation by those
  per-group positions; `pd.concat []` raises, modelled by `none`.
* a raising statement (e.g. `set_B.iloc[0]` on an empty frame, an
  IndexError) is modelled by the evaluator returning `none`.
* compensation values and thresholds are modelled as exact integers: the
  algorithm only compares, subtracts, and adds them (no division or
  rounding), so every statement below is about that ordered additive
  arithmetic, which ℤ embeds.
-/

/-- A compensation cell: a numeric value, a missing value (pandas NaN), or
raw non-numeric text.  Numeric text is modelled as already parsed into
`num`; `raw` stands for text that `pd.to_numeric` cannot interpret. -/
inductive CompVal where
  | num (q : ℤ)
  | nan
  | raw (s : String)
deriving DecidableEq

/-- The numeric reading of a compensation cell, if any. -/
def CompVal.toNum : CompVal → Option ℤ
  | .num q => some q
  | _ => none

/-- Whether a compensation cell holds an actual number. -/
def CompVal.isNum : CompVal → Bool
  | .num _ => true
  | _ => false

/-- Model of `pd.to_numeric(cell, errors="coerce")`: a numeric cell stays, anything
else becomes NaN (src/Testing.py line 24). -/
def coerceComp (c : CompVal) : CompVal :=
  match c.toNum with
  | some q => .num q
  | none => .nan

/-- NaN-propagating subtraction, as in `top_comp - cur_comp`. -/
def CompVal.sub : CompVal → CompVal → CompVal
  | .num a, .num b => .num (a - b)
  | _, _ => .nan

/-- NaN-propagating `cell + threshold`. -/
def CompVal.addConst : CompVal → ℤ → CompVal
  | .num a, t => .num (a + t)
  | _, _ => .nan

/-- Comparison `v <= t` for a cell against a plain number; False on NaN, as in pandas. -/
def leConst (v : CompVal) (t : ℤ) : Bool :=
  match v.toNum with
  | some a => decide (a ≤ t)
  | none => false

/-- Comparison `a > b` on cells; False when either side is NaN, as in pandas. -/
def gtVal (a b : CompVal) : Bool :=
  match a.toNum, b.toNum with
  | some x, some y => decide (y < x)
  | _, _ => false

/-- Comparison `a <= b` on cells; False when either side is NaN, as in pandas. -/
def leVal (a b : CompVal) : Bool :=
  match a.toNum, b.toNum with
  | some x, some y => decide (x ≤ y)
  | _, _ => false

/-- One roster row.  `payEquity` models the "Pay Equity" output column
(initialised to `""` on line 27 of src/Testing.py). -/
structure Record where
  employeeNumber : String
  jobCode : Option String
  departmentCode : Option String
  comp : CompVal
  gender : String
  ethnicity : String
  payEquity : String
deriving DecidableEq

/-- The grouping key `("Job Code", "Department Code")` of a row. -/
def recKey (r : Record) : Option String × Option String :=
  (r.jobCode, r.departmentCode)

/-- Line 24 and line 27 of src/Testing.py applied to one row: coerce the
compensation cell and initialise the "Pay Equity" column. -/
def coerceRecord (r : Record) : Record :=
  { r with comp := coerceComp r.comp, payEquity := "" }

/-- Stable insertion of `a` into `l`: `a` goes before the first element `b`
with `le a b`. -/
def insertSortedBy (le : α → α → Bool) (a : α) : List α → List α
  | [] => [a]
  | b :: l => if le a b then a :: b :: l else b :: insertSortedBy le a l

/-- Stable insertion sort by the Boolean relation `le`. -/
def sortBy (le : α → α → Bool) : List α → List α
  | [] => []
  | a :: l => insertSortedBy le a (sortBy le l)

/-- Descending-compensation comparison with NaN last, the key order of
`sort_values(by=comp, ascending=False)` on line 36. -/
def compKeyGE (a b : CompVal) : Bool :=
  match a.toNum, b.toNum with
  | some x, some y => decide (y ≤ x)
  | some _, none => true
  | none, some _ => false
  | none, none => true

/-- Line 36: sort a cohort by descending compensation, NaN last. -/
def sortDescComp (group : List Record) : List Record :=
  sortBy (fun a b => compKeyGE a.comp b.comp) group

/-- First-occurrence deduplication, auxiliary accumulator form. -/
def dedupFirstAux (seen : List α) [DecidableEq α] : List α → List α
  | [] => []
  | a :: l => if a ∈ seen then dedupFirstAux seen l
              else a :: dedupFirstAux (a :: seen) l

/-- Model of `Series.unique()`: deduplicate keeping the first occurrence of each
value, in order of first appearance. -/
def dedupFirst [DecidableEq α] (l : List α) : List α :=
  dedupFirstAux [] l

/-- The distinct genders of a frame, in order of appearance
(`set["Gender"].unique()`). -/
def genders (l : List Record) : List String :=
  dedupFirst (l.map Record.gender)

/-- The distinct ethnicities of a frame, in order of appearance
(`set["Ethnicity"].unique()`). -/
def ethnicities (l : List Record) : List String :=
  dedupFirst (l.map Record.ethnicity)

/-- Line 54: `set_B`, the cohort members paid strictly more than
`subject + threshold`, in cohort (ranked) order. -/
def setB (group : List Record) (cur : Record) (t : ℤ) : List Record :=
  group.filter (fun r => gtVal r.comp (cur.comp.addConst t))

/-- Line 55: `set_C`, the cohort members paid at most `subject + threshold`,
in cohort (ranked) order. -/
def setC (group : List Record) (cur : Record) (t : ℤ) : List Record :=
  group.filter (fun r => leVal r.comp (cur.comp.addConst t))

/-- The gender finding message of lines 61 and 64. -/
def genderMsg (empNo : String) : String :=
  "Pay Disparity detected with respect to Gender. Employee Number: " ++ empNo

/-- The ethnicity finding message of line 70 (no ethnicity value cited). -/
def ethnMsgA (empNo : String) : String :=
  "Pay Disparity detected with respect to Ethnicity. Employee Number: " ++ empNo

/-- The ethnicity finding message of line 77 (citing the ethnicity value). -/
def ethnMsgC (eth empNo : String) : String :=
  "Pay Disparity detected with respect to Ethnicity " ++ eth ++
    ". Employee Number: " ++ empNo

/-- Lines 58-64, the gender bias logic.  Outer `none` models a raised
IndexError (`set_B.iloc[0]` on an empty `set_B`); inner `some s` is an
emitted finding, inner `none` no finding. -/
def genderFinding (B C : List Record) (cur : Record) : Option (Option String) :=
  if C = [] ∧ cur.gender ∉ genders B then
    B.head?.map (fun b => some (genderMsg b.employeeNumber))
  else if cur.gender ∉ genders B ∧ C.all (fun r => r.gender == cur.gender) then
    B.head?.map (fun b => some (genderMsg b.employeeNumber))
  else some none

/-- Lines 67-77, the ethnicity bias logic, with the same `Option` reading as
`genderFinding`.  The third branch scans `set_B`'s unique ethnicities in
order and picks the first one absent from `set_C`'s unique ethnicities,
then the first `set_B` row holding it. -/
def ethnicityFinding (B C : List Record) (cur : Record) : Option (Option String) :=
  if C = [] ∧ cur.ethnicity ∉ ethnicities B then
    B.head?.map (fun b => some (ethnMsgA b.employeeNumber))
  else if cur.ethnicity ∈ ethnicities B then
    some none
  else if ¬ ((ethnicities B).all (fun e => decide (e ∈ ethnicities C))) then
    match ((ethnicities B).filter (fun e => decide (e ∉ ethnicities C))).head? with
    | none => none
    | some e0 =>
        ((B.filter (fun r => r.ethnicity == e0)).head?).map
          (fun b => some (ethnMsgC e0 b.employeeNumber))
  else some none

/-- Lines 45-87 for one subject of an analyzable (already ranked) cohort:
skip when the gap to the top earner is within the threshold, otherwise
build `set_B`/`set_C` and join the gender and ethnicity findings with
`" | "`.  `none` models a raised exception. -/
def subjectFindings (sorted : List Record) (topComp : CompVal) (t : ℤ)
    (cur : Record) : Option String :=
  if leConst (topComp.sub cur.comp) t then some ""
  else
    let B := setB sorted cur t
    let C := setC sorted cur t
    match genderFinding B C cur, ethnicityFinding B C cur with
    | some g, some e => some (String.intercalate " | " (g.toList ++ e.toList))
    | _, _ => none

/-- Sequence a fallible map over a list, propagating the first failure, as
the Python loop propagates the first raised exception. -/
def traverseOption (f : α → Option β) : List α → Option (List β)
  | [] => some []
  | a :: l =>
      match f a, traverseOption f l with
      | some b, some l2 => some (b :: l2)
      | _, _ => none

/-- Lines 36-89 for one cohort: sort descending, keep single-member cohorts
untouched (empty findings), otherwise evaluate every member against the
cohort's top earner.  The subjects are mutually independent, so the Python
loop's reverse iteration order is immaterial; `none` models a raise. -/
def evalGroup (t : ℤ) (group : List Record) : Option (List Record) :=
  let sorted := sortDescComp group
  if sorted.length < 2 then
    some (sorted.map (fun r => { r with payEquity := "" }))
  else
    match sorted with
    | [] => some []
    | top :: _ =>
        traverseOption
          (fun cur => (subjectFindings sorted top.comp t cur).map
            (fun f => { cur with payEquity := f }))
          sorted

/-- Ascending order on optional (possibly missing) key components, missing
last, as pandas sorts group keys. -/
def optStrLE (a b : Option String) : Bool :=
  match a, b with
  | some x, some y => decide (x ≤ y)
  | some _, none => true
  | none, some _ => false
  | none, none => true

/-- Lexicographic order on grouping keys. -/
def keyLEb (a b : Option String × Option String) : Bool :=
  if a.1 = b.1 then optStrLE a.2 b.2 else optStrLE a.1 b.1

/-- Line 30: the groups of `groupby(["Job Code", "Department Code"],
dropna=False)`, keys sorted ascending, each group's rows in input order. -/
def groupsOf (l : List Record) : List (List Record) :=
  (sortBy keyLEb (dedupFirst (l.map recKey))).map
    (fun k => l.filter (fun r => decide (recKey r = k)))

/-- Pair every element with its position, starting at `i`
(`reset_index(drop=True)` gives each group the index `0..len-1`). -/
def withIdx (i : ℕ) : List α → List (ℕ × α)
  | [] => []
  | a :: l => (i, a) :: withIdx (i + 1) l

/-- Line 92, `pd.concat(results).sort_index()`: concatenate the per-group
frames (each reindexed `0..len-1`) and stably sort by that index. -/
def sortIndexMerge (results : List (List Record)) : List Record :=
  (sortBy (fun a b => decide (a.1 ≤ b.1))
    ((results.map (withIdx 0)).flatten)).map Prod.snd

/-- Lines 19-93, `analyze_pay_equity`: coerce compensation, initialise the
"Pay Equity" column, group, evaluate every group, and merge.  `none` models
a raised exception; in particular `pd.concat []` raises on an empty input. -/
def analyze_pay_equity (df : List Record) (threshold : ℤ) : Option (List Record) :=
  let df1 := df.map coerceRecord
  (traverseOption (evalGroup threshold) (groupsOf df1)).bind
    (fun results => if results = [] then none else some (sortIndexMerge results))

/-- The employee numbers of the output rows carrying a nonempty finding. -/
def findingEmpNos (df : List Record) (t : ℤ) : Option (List String) :=
  (analyze_pay_equity df t).map
    (fun out => (out.filter (fun r => !(r.payEquity == ""))).map Record.employeeNumber)

/-- Whether every compensation cell of a frame is an actual number. -/
def allNumeric (l : List Record) : Bool :=
  l.all (fun r => r.comp.isNum)

/-- The gender rule as the specification words it: a finding is emitted iff
the subject's gender does not appear among `Above`'s genders and either
`Peers` is empty or every member of `Peers` has the subject's gender; the
finding cites the first `Above` member.  Written from the spec text, to be
compared against `genderFinding`. -/
def specGenderRule (B C : List Record) (cur : Record) : Option String :=
  if cur.gender ∉ B.map Record.gender ∧
      (C = [] ∨ ∀ p ∈ C, p.gender = cur.gender) then
    B.head?.map (fun b => genderMsg b.employeeNumber)
  else none

/-- The ethnicity rule as the specification words it, with its strict
three-case precedence: (a) `Peers` empty and subject's ethnicity not among
`Above`'s ethnicities, citing the first `Above` member; (b) suppression when
the subject's ethnicity appears among `Above`'s ethnicities; (c) the first
ethnicity value, scanning `Above` in order, absent from `Peers`, citing the
first `Above` member holding it; (d) otherwise nothing.  Written from the
spec text, to be compared against `ethnicityFinding`. -/
def specEthnicityRule (B C : List Record) (cur : Record) : Option String :=
  if C = [] ∧ cur.ethnicity ∉ B.map Record.ethnicity then
    B.head?.map (fun b => ethnMsgA b.employeeNumber)
  else if cur.ethnicity ∈ B.map Record.ethnicity then
    none
  else if ∃ e ∈ B.map Record.ethnicity, e ∉ C.map Record.ethnicity then
    match (B.map Record.ethnicity).find?
        (fun e => decide (e ∉ C.map Record.ethnicity)) with
    | none => none
    | some e0 =>
        (B.find? (fun r => r.ethnicity == e0)).map
          (fun b => ethnMsgC e0 b.employeeNumber)
  else none

/-- A concrete roster row of the cohort `("J", "D")`, for the concrete
evaluations below. -/
def empJD (no : String) (c : CompVal) (g e : String) : Record :=
  ⟨no, some "J", some "D", c, g, e, ""⟩

/-- Two-record cohort, lower earner first in input order. -/
def c1in : List Record :=
  [empJD "1" (.num 10) "M" "E", empJD "2" (.num 20) "M" "E"]

/-- Cohort used against threshold monotonicity: top earner male, the two
lower-paid members female, all of one ethnicity. -/
def c2in : List Record :=
  [empJD "1" (.num 20) "M" "E", empJD "2" (.num 10) "F" "E",
   empJD "3" (.num 0) "F" "E"]

/-- The lowest-paid subject of `c2in`. -/
def c2sub : Record := empJD "3" (.num 0) "F" "E"

/-- The top earner of `c2in`. -/
def c2top : Record := empJD "1" (.num 20) "M" "E"

/-- Two-record cohort whose first input row has non-numeric compensation. -/
def c3in : List Record :=
  [empJD "1" (.raw "abc") "F" "E", empJD "2" (.num 100) "M" "E"]

/-- The ranked two-member cohort of the specification's second scenario:
A (100, M, X) above C (50, F, Y). -/
def c4grp : List Record :=
  [empJD "A" (.num 100) "M" "X", empJD "C" (.num 50) "F" "Y"]

/-- The subject of `c4grp`. -/
def c4cur : Record := empJD "C" (.num 50) "F" "Y"

/-- The top earner of `c4grp`. -/
def c4top : Record := empJD "A" (.num 100) "M" "X"

/-- A cohort member whose coerced compensation is NaN. -/
def c7nan : Record := empJD "9" .nan "F" "E"

/-- A numeric cohort member alongside `c7nan`. -/
def c7num : Record := empJD "8" (.num 5) "M" "E"

/-- A cohort containing a NaN-compensation member. -/
def c7grp : List Record := [c7num, c7nan]

/-- Single-record input whose compensation is non-numeric text. -/
def c8rec : Record := empJD "1" (.raw "abc") "F" "E"

/-- The row `c8rec` as emitted by the analysis: compensation coerced to NaN. -/
def c8out : Record := ⟨"1", some "J", some "D", .nan, "F", "E", ""⟩

/-- Single-record numeric input for the frame-condition witness. -/
def c8wrec : Record := empJD "5" (.num 7) "F" "E"

/-- Ranked cohort for the `Above`-nonemptiness witness. -/
def c9grp : List Record :=
  [empJD "1" (.num 100) "M" "X", empJD "2" (.num 10) "F" "Y"]

/-- The subject of `c9grp`. -/
def c9cur : Record := empJD "2" (.num 10) "F" "Y"

/-- The top earner of `c9grp`. -/
def c9top : Record := empJD "1" (.num 100) "M" "X"

/-- Unranked two-member cohort (lower earner first) for the top-earner
witness. -/
def c10grp : List Record :=
  [empJD "1" (.num 10) "M" "E", empJD "2" (.num 20) "M" "E"]

/-- Value of `evalGroup 0 c10grp`, written out: rank order, no findings. -/
def c10out : List Record :=
  [empJD "2" (.num 20) "M" "E", empJD "1" (.num 10) "M" "E"]

/-! ## Helper lemmas about the list combinators -/

theorem insertSortedBy_perm (le : α → α → Bool) (a : α) :
    ∀ l : List α, (insertSortedBy le a l).Perm (a :: l)
  | [] => List.Perm.refl _
  | b :: l => by
      rw [insertSortedBy]
      by_cases h : le a b
      · rw [if_pos h]
      · rw [if_neg h]
        exact ((insertSortedBy_perm le a l).cons b).trans (List.Perm.swap a b l)

theorem sortBy_perm (le : α → α → Bool) : ∀ l : List α, (sortBy le l).Perm l
  | [] => List.Perm.refl _
  | a :: l => (insertSortedBy_perm le a (sortBy le l)).trans ((sortBy_perm le l).cons a)

theorem mem_sortBy (le : α → α → Bool) (l : List α) (x : α) :
    x ∈ sortBy le l ↔ x ∈ l :=
  (sortBy_perm le l).mem_iff

theorem mem_dedupFirstAux [DecidableEq α] (x : α) (l : List α) :
    ∀ seen : List α, x ∈ dedupFirstAux seen l ↔ x ∈ l ∧ x ∉ seen := by
  induction l with
  | nil => intro seen; simp [dedupFirstAux]
  | cons a l ih =>
      intro seen
      rw [dedupFirstAux]
      by_cases h : a ∈ seen
      · rw [if_pos h, ih seen]
        by_cases hxa : x = a
        · subst hxa; simp [h]
        · simp [hxa]
      · rw [if_neg h, List.mem_cons, ih (a :: seen)]
        by_cases hxa : x = a
        · subst hxa; simp [h]
        · simp [hxa, List.mem_cons]

theorem mem_dedupFirst [DecidableEq α] (x : α) (l : List α) :
    x ∈ dedupFirst l ↔ x ∈ l := by
  rw [dedupFirst, mem_dedupFirstAux]
  simp

theorem nodup_dedupFirstAux [DecidableEq α] (l : List α) :
    ∀ seen : List α, (dedupFirstAux seen l).Nodup := by
  induction l with
  | nil => intro seen; simp [dedupFirstAux]
  | cons a l ih =>
      intro seen
      rw [dedupFirstAux]
      by_cases h : a ∈ seen
      · rw [if_pos h]; exact ih seen
      · rw [if_neg h]
        refine List.nodup_cons.mpr ⟨?_, ih (a :: seen)⟩
        intro hmem
        rcases (mem_dedupFirstAux a l (a :: seen)).mp hmem with ⟨-, h2⟩
        exact h2 (List.mem_cons_self a seen)

theorem filter_head?_eq_find? (p : α → Bool) :
    ∀ l : List α, (l.filter p).head? = l.find? p
  | [] => rfl
  | a :: l => by
      by_cases h : p a
      · simp [List.filter_cons, List.find?_cons, h]
      · simp [List.filter_cons, List.find?_cons, h, filter_head?_eq_find? p l]

theorem find?_dedupFirstAux [DecidableEq α] (p : α → Bool) :
    ∀ (l seen : List α), (∀ s ∈ seen, p s = false) →
      (dedupFirstAux seen l).find? p = l.find? p
  | [], _, _ => rfl
  | a :: l, seen, hseen => by
      rw [dedupFirstAux]
      by_cases h : a ∈ seen
      · rw [if_pos h, find?_dedupFirstAux p l seen hseen]
        have hpa : p a = false := hseen a h
        simp [List.find?_cons, hpa]
      · rw [if_neg h]
        by_cases hpa : p a
        · simp [List.find?_cons, hpa]
        · have hseen2 : ∀ s ∈ a :: seen, p s = false := by
            intro s hs
            rcases List.mem_cons.mp hs with rfl | hs
            · simpa using hpa
            · exact hseen s hs
          simp [List.find?_cons, hpa,
            find?_dedupFirstAux p l (a :: seen) hseen2]

theorem find?_dedupFirst [DecidableEq α] (p : α → Bool) (l : List α) :
    (dedupFirst l).find? p = l.find? p :=
  find?_dedupFirstAux p l [] (by simp)

theorem traverseOption_cons_some (f : α → Option β) (a : α) (l : List α)
    (out : List β) (h : traverseOption f (a :: l) = some out) :
    ∃ b l2, f a = some b ∧ traverseOption f l = some l2 ∧ out = b :: l2 := by
  rcases hfa : f a with _ | b <;> rcases hl : traverseOption f l with _ | l2 <;>
    simp [traverseOption, hfa, hl] at h
  exact ⟨b, l2, rfl, rfl, h.symm⟩

theorem traverseOption_mem (f : α → Option β) :
    ∀ (l : List α) (out : List β), traverseOption f l = some out →
      ∀ b ∈ out, ∃ a ∈ l, f a = some b
  | [], out, h => by
      simp [traverseOption] at h
      subst h
      simp
  | a :: l, out, h => by
      obtain ⟨b, l2, hfa, hl, rfl⟩ := traverseOption_cons_some f a l out h
      intro x hx
      rcases List.mem_cons.mp hx with rfl | hx
      · exact ⟨a, List.mem_cons_self a l, hfa⟩
      · obtain ⟨a2, ha2, hfa2⟩ := traverseOption_mem f l l2 hl x hx
        exact ⟨a2, List.mem_cons_of_mem a ha2, hfa2⟩

theorem allNumeric_comp (l : List Record) (h : allNumeric l = true) (r : Record)
    (hr : r ∈ l) : ∃ q : ℤ, r.comp = CompVal.num q := by
  have hall := List.all_eq_true.mp h r hr
  rcases hc : r.comp with q | _ | s
  · exact ⟨q, rfl⟩
  · rw [hc] at hall
    exact absurd hall (by simp [CompVal.isNum])
  · rw [hc] at hall
    exact absurd hall (by simp [CompVal.isNum])

theorem allNumeric_perm (l1 l2 : List Record) (hp : l1.Perm l2)
    (h : allNumeric l1 = true) : allNumeric l2 = true := by
  rw [allNumeric, List.all_eq_true] at h ⊢
  exact fun r hr => h r (hp.mem_iff.mpr hr)

theorem top_mem_setB (group : List Record) (top cur : Record) (t : ℤ)
    (htop : top ∈ group) (a c : ℤ) (ha : top.comp = .num a)
    (hc : cur.comp = .num c)
    (hgap : leConst (top.comp.sub cur.comp) t = false) :
    gtVal top.comp (cur.comp.addConst t) = true ∧ top ∈ setB group cur t := by
  have h1 : ¬ (a - c ≤ t) := by
    intro hle
    rw [ha, hc] at hgap
    simp [CompVal.sub, leConst, CompVal.toNum, hle] at hgap
  have h2 : c + t < a := by omega
  constructor
  · rw [ha, hc]
    simp [gtVal, CompVal.addConst, CompVal.toNum]
    omega
  · rw [setB, List.mem_filter]
    refine ⟨htop, ?_⟩
    rw [ha, hc]
    simp [gtVal, CompVal.addConst, CompVal.toNum]
    omega

/-! ## The bias rules agree with the specification's wording -/

theorem genderFinding_eq_spec (B C : List Record) (cur : Record) (hB : B ≠ []) :
    genderFinding B C cur = some (specGenderRule B C cur) := by
  obtain ⟨b, B2, rfl⟩ := List.exists_cons_of_ne_nil hB
  have hmem : (cur.gender ∈ genders (b :: B2)) =
      (cur.gender ∈ (b :: B2).map Record.gender) := by
    rw [eq_iff_iff, genders]
    exact mem_dedupFirst _ _
  have hall : (C.all (fun r => r.gender == cur.gender) = true) =
      (∀ p ∈ C, p.gender = cur.gender) := by
    rw [eq_iff_iff, List.all_eq_true]
    simp
  rw [genderFinding, specGenderRule]
  simp only [hmem, hall]
  split_ifs with h1 h2 h3 h4 <;> first | rfl | tauto

theorem ethnicityFinding_eq_spec (B C : List Record) (cur : Record) (hB : B ≠ []) :
    ethnicityFinding B C cur = some (specEthnicityRule B C cur) := by
  have hmemB : (cur.ethnicity ∈ ethnicities B) =
      (cur.ethnicity ∈ B.map Record.ethnicity) := by
    rw [eq_iff_iff, ethnicities]
    exact mem_dedupFirst _ _
  have hguard : (¬ ((ethnicities B).all (fun e => decide (e ∈ ethnicities C)) = true)) =
      (∃ e ∈ B.map Record.ethnicity, e ∉ C.map Record.ethnicity) := by
    rw [eq_iff_iff, List.all_eq_true]
    simp only [decide_eq_true_eq, ethnicities, mem_dedupFirst]
    push_neg
    rfl
  have hp : (fun e => decide (e ∉ ethnicities C)) =
      (fun e => decide (e ∉ C.map Record.ethnicity)) := by
    funext e
    rw [decide_eq_decide, ethnicities, mem_dedupFirst]
  rw [ethnicityFinding, specEthnicityRule]
  simp only [hmemB, hguard, hp]
  split_ifs with h1 h2 h3
  · -- case (a): Peers empty, subject's ethnicity absent from Above
    obtain ⟨b, B2, rfl⟩ := List.exists_cons_of_ne_nil hB
    rfl
  · -- case (b): suppression
    rfl
  · -- case (c): some Above ethnicity absent from Peers
    have hfind : ((ethnicities B).filter
        (fun e => decide (e ∉ C.map Record.ethnicity))).head? =
        (B.map Record.ethnicity).find? (fun e => decide (e ∉ C.map Record.ethnicity)) := by
      rw [filter_head?_eq_find?, ethnicities, find?_dedupFirst]
    obtain ⟨e0, he0⟩ : ∃ e0, (B.map Record.ethnicity).find?
        (fun e => decide (e ∉ C.map Record.ethnicity)) = some e0 := by
      rw [← Option.isSome_iff_exists]
      rw [List.find?_isSome]
      obtain ⟨e, he, hce⟩ := h3
      exact ⟨e, he, by simpa using hce⟩
    have he0B : e0 ∈ B.map Record.ethnicity := List.mem_of_find?_eq_some he0
    obtain ⟨b0, hb0, hb0e⟩ := List.mem_map.mp he0B
    obtain ⟨b1, hb1⟩ : ∃ b1, B.find? (fun r => r.ethnicity == e0) = some b1 := by
      rw [← Option.isSome_iff_exists]
      rw [List.find?_isSome]
      exact ⟨b0, hb0, by simp [hb0e]⟩
    rw [hfind, he0]
    dsimp only
    rw [filter_head?_eq_find?, hb1]
    rfl
  · -- case (d): nothing to report
    rfl

/-! ## Structural lemmas about the pipeline -/

theorem mem_sortDescComp (g : List Record) (x : Record) :
    x ∈ sortDescComp g ↔ x ∈ g := by
  rw [sortDescComp]
  exact mem_sortBy _ _ _

theorem mem_withIdx (l : List α) :
    ∀ (i : ℕ) (p : ℕ × α), p ∈ withIdx i l → p.2 ∈ l := by
  induction l with
  | nil => intro i p hp; simp [withIdx] at hp
  | cons a l ih =>
      intro i p hp
      rw [withIdx, List.mem_cons] at hp
      rcases hp with rfl | hp
      · exact List.mem_cons_self _ _
      · exact List.mem_cons_of_mem a (ih (i + 1) p hp)

theorem sortIndexMerge_mem (results : List (List Record)) (r : Record)
    (hr : r ∈ sortIndexMerge results) : ∃ res ∈ results, r ∈ res := by
  rw [sortIndexMerge] at hr
  obtain ⟨p, hp, rfl⟩ := List.mem_map.mp hr
  rw [mem_sortBy] at hp
  obtain ⟨el, hel, hpel⟩ := List.mem_flatten.mp hp
  obtain ⟨res, hres, rfl⟩ := List.mem_map.mp hel
  exact ⟨res, hres, mem_withIdx res 0 p hpel⟩

theorem groupsOf_sub (l : List Record) (g : List Record) (hg : g ∈ groupsOf l)
    (c : Record) (hc : c ∈ g) : c ∈ l := by
  rw [groupsOf] at hg
  obtain ⟨k, hk, rfl⟩ := List.mem_map.mp hg
  exact (List.mem_filter.mp hc).1

theorem evalGroup_mem (t : ℤ) (g : List Record) (res : List Record)
    (h : evalGroup t g = some res) (r : Record) (hr : r ∈ res) :
    ∃ c ∈ g, r = { c with payEquity := r.payEquity } := by
  simp only [evalGroup] at h
  by_cases hlen : (sortDescComp g).length < 2
  · rw [if_pos hlen] at h
    obtain rfl := Option.some.inj h
    obtain ⟨c, hc, rfl⟩ := List.mem_map.mp hr
    exact ⟨c, (mem_sortDescComp g c).mp hc, rfl⟩
  · rw [if_neg hlen] at h
    rcases hs : sortDescComp g with _ | ⟨top, rest⟩
    · rw [hs] at h
      obtain rfl := Option.some.inj h
      simp at hr
    · rw [hs] at h
      obtain ⟨c, hc, hfc⟩ := traverseOption_mem _ _ _ h r hr
      obtain ⟨s, hsf, rfl⟩ := Option.map_eq_some'.mp hfc
      refine ⟨c, ?_, rfl⟩
      rw [← mem_sortDescComp g c, hs]
      exact hc

theorem analyze_shape (df : List Record) (t : ℤ) (out : List Record)
    (h : analyze_pay_equity df t = some out) :
    ∃ results,
      traverseOption (evalGroup t) (groupsOf (df.map coerceRecord)) = some results ∧
      results ≠ [] ∧ out = sortIndexMerge results := by
  simp only [analyze_pay_equity] at h
  rcases htr : traverseOption (evalGroup t) (groupsOf (df.map coerceRecord))
      with _ | results
  · rw [htr] at h
    simp at h
  · rw [htr] at h
    by_cases hres : results = []
    · rw [Option.some_bind, if_pos hres] at h
      simp at h
    · rw [Option.some_bind, if_neg hres] at h
      exact ⟨results, rfl, hres, (Option.some.inj h).symm⟩

theorem gtVal_addConst_mono (a b : CompVal) (t1 t2 : ℤ) (h12 : t1 ≤ t2)
    (h : gtVal a (b.addConst t2) = true) : gtVal a (b.addConst t1) = true := by
  rcases a with x | _ | s
  · rcases b with y | _ | s2
    · simp only [gtVal, CompVal.addConst, CompVal.toNum, decide_eq_true_eq] at h ⊢
      omega
    · simp [gtVal, CompVal.addConst, CompVal.toNum] at h
    · simp [gtVal, CompVal.addConst, CompVal.toNum] at h
  · simp [gtVal, CompVal.addConst, CompVal.toNum] at h
  · simp [gtVal, CompVal.addConst, CompVal.toNum] at h

theorem leVal_addConst_mono (a b : CompVal) (t1 t2 : ℤ) (h12 : t1 ≤ t2)
    (h : leVal a (b.addConst t1) = true) : leVal a (b.addConst t2) = true := by
  rcases a with x | _ | s
  · rcases b with y | _ | s2
    · simp only [leVal, CompVal.addConst, CompVal.toNum, decide_eq_true_eq] at h ⊢
      omega
    · simp [leVal, CompVal.addConst, CompVal.toNum] at h
    · simp [leVal, CompVal.addConst, CompVal.toNum] at h
  · simp [leVal, CompVal.addConst, CompVal.toNum] at h
  · simp [leVal, CompVal.addConst, CompVal.toNum] at h

theorem leConst_mono (v : CompVal) (t1 t2 : ℤ) (h12 : t1 ≤ t2)
    (h : leConst v t1 = true) : leConst v t2 = true := by
  rcases v with x | _ | s
  · simp only [leConst, CompVal.toNum, decide_eq_true_eq] at h ⊢
    omega
  · simp [leConst, CompVal.toNum] at h
  · simp [leConst, CompVal.toNum] at h

theorem setB_ne_nil_of_gap (ranked : List Record) (top cur : Record) (t : ℤ)
    (hh : ranked.head? = some top) (hnum : allNumeric ranked = true)
    (hcur : cur ∈ ranked)
    (hgap : leConst (top.comp.sub cur.comp) t = false) :
    setB ranked cur t ≠ [] ∧ top ∈ setB ranked cur t ∧
      gtVal top.comp (cur.comp.addConst t) = true := by
  have htop : top ∈ ranked := by
    rcases ranked with _ | ⟨a, l⟩
    · simp at hh
    · simp only [List.head?_cons, Option.some.injEq] at hh
      subst hh
      exact List.mem_cons_self _ _
  obtain ⟨a, ha⟩ := allNumeric_comp ranked hnum top htop
  obtain ⟨c, hc⟩ := allNumeric_comp ranked hnum cur hcur
  obtain ⟨hgt, hmem⟩ := top_mem_setB ranked top cur t htop a c ha hc hgap
  exact ⟨List.ne_nil_of_mem hmem, hmem, hgt⟩

/-! ## Claims -/

/-- C1: the claim says the output preserves the original input record order;
evaluating the code on the two-record cohort `c1in` (lower earner first in
the input) yields the records in rank order ["2", "1"], not the input order
["1", "2"]: `reset_index(drop=True)` on line 36 discards the original
indexes, so the `sort_index()` on line 92 sorts by rank position within each
cohort instead of restoring input order.  Both records still appear exactly
once (the totality part of the claim holds). -/
theorem c1_output_order_eval :
    (analyze_pay_equity c1in 0).map (List.map Record.employeeNumber)
        = some ["2", "1"] ∧
      c1in.map Record.employeeNumber = ["1", "2"] ∧
      (["2", "1"] : List String) ≠ ["1", "2"] := by
  decide

/-- C2: counterexample to threshold monotonicity.  On the fixed input
`c2in` with non-negative thresholds 5 ≤ 15, the set of records receiving a
finding at threshold 15 is {"3"}, which is not a subset of the set {"2"}
receiving one at threshold 5: raising the threshold ADDED a finding for
record "3" (shrinking `Above` made its gender disappear from `Above`). -/
theorem c2_threshold_monotonicity_cex :
    (0 : ℤ) ≤ 5 ∧ (5 : ℤ) ≤ 15 ∧
      findingEmpNos c2in 5 = some ["2"] ∧
      findingEmpNos c2in 15 = some ["3"] ∧
      ("3" : String) ∉ (["2"] : List String) := by
  decide

/-- C2 (amended): what is actually monotone in the threshold, for a fixed
input: for non-negative thresholds t1 ≤ t2, every subject's `Above` set at
t2 is contained in its `Above` set at t1, its `Peers` set at t1 is contained
in its `Peers` set at t2, and every subject skipped (gap within threshold)
at t1 is skipped at t2.  The set of records receiving findings is not
monotone (see the counterexample). -/
theorem c2_threshold_monotone_sets (group : List Record) (cur : Record)
    (t1 t2 : ℤ) (_h0 : 0 ≤ t1) (h12 : t1 ≤ t2) :
    (∀ r ∈ setB group cur t2, r ∈ setB group cur t1) ∧
    (∀ r ∈ setC group cur t1, r ∈ setC group cur t2) ∧
    (∀ v : CompVal, leConst v t1 = true → leConst v t2 = true) := by
  refine ⟨?_, ?_, fun v h => leConst_mono v t1 t2 h12 h⟩
  · intro r hr
    rw [setB, List.mem_filter] at hr ⊢
    exact ⟨hr.1, gtVal_addConst_mono r.comp cur.comp t1 t2 h12 hr.2⟩
  · intro r hr
    rw [setC, List.mem_filter] at hr ⊢
    exact ⟨hr.1, leVal_addConst_mono r.comp cur.comp t1 t2 h12 hr.2⟩

theorem c2_threshold_monotone_sets_witness :
    c2top ∈ setB c2in c2sub 5 :=
  (c2_threshold_monotone_sets c2in c2sub 5 15 (by decide) (by decide)).1
    c2top (by decide)

/-- C3: the claim says a record with non-numeric compensation never makes
`analyze_pay_equity` raise.  Evaluating the code on `c3in` (a two-record
cohort whose first record has compensation "abc"): the coerced NaN makes
both `set_B` and `set_C` empty while the gap test `NaN <= threshold` is
False, so the gender branch fires on an empty `set_B` and `set_B.iloc[0]`
raises IndexError — modelled as `none`. -/
theorem c3_nonnumeric_compensation_raises :
    analyze_pay_equity c3in 0 = none := by
  decide

/-- C4: for every subject of an analyzable cohort (head `top`, all
compensations numeric) whose gap to the top earner exceeds the threshold,
the code's ethnicity logic agrees exactly with the specification's
three-case precedence (`specEthnicityRule`, written from the spec text):
case (a) on empty Peers with the subject's ethnicity absent from Above,
suppression in case (b) even when case (c) would apply, and in case (c) the
first Above ethnicity (in Above's iteration order) absent from Peers,
citing the first Above member holding it; and no branch raises. -/
theorem c4_ethnicity_rule_matches_spec (ranked : List Record)
    (top cur : Record) (t : ℤ) (hh : ranked.head? = some top)
    (hnum : allNumeric ranked = true) (hcur : cur ∈ ranked)
    (hgap : leConst (top.comp.sub cur.comp) t = false) :
    ethnicityFinding (setB ranked cur t) (setC ranked cur t) cur
      = some (specEthnicityRule (setB ranked cur t) (setC ranked cur t) cur) := by
  obtain ⟨hne, -, -⟩ := setB_ne_nil_of_gap ranked top cur t hh hnum hcur hgap
  exact ethnicityFinding_eq_spec _ _ _ hne

theorem c4_ethnicity_rule_matches_spec_witness :
    ethnicityFinding (setB c4grp c4cur 10) (setC c4grp c4cur 10) c4cur
      = some (specEthnicityRule (setB c4grp c4cur 10) (setC c4grp c4cur 10) c4cur) :=
  c4_ethnicity_rule_matches_spec c4grp c4top c4cur 10
    (by decide) (by decide) (by decide) (by decide)

/-- C5: for every subject of an analyzable cohort (head `top`, all
compensations numeric) whose gap to the top earner exceeds the threshold,
the code's gender logic emits a finding if and only if the subject's gender
does not appear among Above's genders and (Peers is empty or every Peers
member has the subject's gender), citing the first Above member in Above's
current ordering — exactly `specGenderRule`, written from the spec text;
and no branch raises. -/
theorem c5_gender_rule_matches_spec (ranked : List Record)
    (top cur : Record) (t : ℤ) (hh : ranked.head? = some top)
    (hnum : allNumeric ranked = true) (hcur : cur ∈ ranked)
    (hgap : leConst (top.comp.sub cur.comp) t = false) :
    genderFinding (setB ranked cur t) (setC ranked cur t) cur
      = some (specGenderRule (setB ranked cur t) (setC ranked cur t) cur) := by
  obtain ⟨hne, -, -⟩ := setB_ne_nil_of_gap ranked top cur t hh hnum hcur hgap
  exact genderFinding_eq_spec _ _ _ hne

theorem c5_gender_rule_matches_spec_witness :
    genderFinding (setB c4grp c4cur 10) (setC c4grp c4cur 10) c4cur
      = some (specGenderRule (setB c4grp c4cur 10) (setC c4grp c4cur 10) c4cur) :=
  c5_gender_rule_matches_spec c4grp c4top c4cur 10
    (by decide) (by decide) (by decide) (by decide)

/-- C7: counterexample to the claim as stated ("for every subject"): the
subject `c7nan` of cohort `c7grp`, whose coerced compensation is NaN, has an
empty Peers set at the non-negative threshold 0 — `NaN <= NaN + 0` is False
— so Peers neither contains the subject nor is nonempty, and the
Peers-empty branches are reachable (C3 exercises one). -/
theorem c7_peers_cex :
    c7nan ∈ c7grp ∧ (0 : ℤ) ≤ 0 ∧ setC c7grp c7nan 0 = [] ∧
      c7nan ∉ setC c7grp c7nan 0 := by
  decide

/-- C7 (amended): for every subject whose (coerced) compensation is an
actual number, and every non-negative threshold, the Peers set contains the
subject and is therefore nonempty; the Peers-empty branches are unreachable
for such subjects. -/
theorem c7_peers_contain_numeric_subject (group : List Record) (cur : Record)
    (t : ℤ) (q : ℤ) (hq : cur.comp = .num q) (hcur : cur ∈ group)
    (ht : 0 ≤ t) :
    cur ∈ setC group cur t ∧ setC group cur t ≠ [] := by
  have hmem : cur ∈ setC group cur t := by
    rw [setC, List.mem_filter]
    refine ⟨hcur, ?_⟩
    rw [hq]
    simp only [leVal, CompVal.addConst, CompVal.toNum, decide_eq_true_eq]
    omega
  exact ⟨hmem, List.ne_nil_of_mem hmem⟩

theorem c7_peers_contain_numeric_subject_witness :
    c7num ∈ setC c7grp c7num 0 ∧ setC c7grp c7num 0 ≠ [] :=
  c7_peers_contain_numeric_subject c7grp c7num 0 5
    (by decide) (by decide) (by decide)

/-- C8: counterexample to the frame claim: on the single-record input
`[c8rec]` whose compensation is the text "abc", the output record's
compensation is NaN — line 24 overwrites the compensation column with
`pd.to_numeric(..., errors="coerce")`, so the field does NOT keep its
original value. -/
theorem c8_frame_cex :
    analyze_pay_equity [c8rec] 0 = some [c8out] ∧ c8out.comp ≠ c8rec.comp := by
  decide

/-- C8 (amended): whenever the analysis returns, every output record is one
of the input records with exactly two changes: the compensation field is
replaced by its numeric coercion (NaN when non-numeric) and the findings
field is set; every other field (employee number, job code, department
code, gender, ethnicity) keeps its original value.  (The sequence order is
not preserved — see C1.) -/
theorem c8_frame_fields (df : List Record) (t : ℤ) (out : List Record)
    (h : analyze_pay_equity df t = some out) :
    ∀ r2 ∈ out, ∃ r ∈ df,
      r2 = { r with comp := coerceComp r.comp, payEquity := r2.payEquity } := by
  obtain ⟨results, htr, -, rfl⟩ := analyze_shape df t out h
  intro r2 hr2
  obtain ⟨res, hres, hr2res⟩ := sortIndexMerge_mem results r2 hr2
  obtain ⟨g, hg, hge⟩ := traverseOption_mem _ _ _ htr res hres
  obtain ⟨c, hc, hceq⟩ := evalGroup_mem t g res hge r2 hr2res
  have hcdf : c ∈ df.map coerceRecord := groupsOf_sub _ g hg c hc
  obtain ⟨r, hr, rfl⟩ := List.mem_map.mp hcdf
  exact ⟨r, hr, hceq⟩

theorem c8_frame_fields_witness :
    ∃ r ∈ [c8wrec], coerceRecord c8wrec =
      { r with comp := coerceComp r.comp,
               payEquity := (coerceRecord c8wrec).payEquity } :=
  c8_frame_fields [c8wrec] 0 [coerceRecord c8wrec] (by decide)
    (coerceRecord c8wrec) (by decide)

/-- C9: for every cohort whose compensations are all numeric (ranked list
with head `top`) and every subject whose gap to the top exceeds the
non-negative threshold: the top earner's compensation exceeds the subject's
plus the threshold, the Above set contains the top earner and is nonempty,
and the subject's whole finding evaluation succeeds (no branch reaches an
out-of-bounds first-element access). -/
theorem c9_above_nonempty (ranked : List Record) (top cur : Record) (t : ℤ)
    (hh : ranked.head? = some top) (hnum : allNumeric ranked = true)
    (hcur : cur ∈ ranked) (_ht : 0 ≤ t)
    (hgap : leConst (top.comp.sub cur.comp) t = false) :
    gtVal top.comp (cur.comp.addConst t) = true ∧
    top ∈ setB ranked cur t ∧ setB ranked cur t ≠ [] ∧
    (subjectFindings ranked top.comp t cur).isSome = true := by
  obtain ⟨hne, hmem, hgt⟩ := setB_ne_nil_of_gap ranked top cur t hh hnum hcur hgap
  refine ⟨hgt, hmem, hne, ?_⟩
  have hg := genderFinding_eq_spec (setB ranked cur t) (setC ranked cur t) cur hne
  have he := ethnicityFinding_eq_spec (setB ranked cur t) (setC ranked cur t) cur hne
  simp only [subjectFindings]
  rw [if_neg (by simp [hgap])]
  rw [hg, he]
  rfl

theorem c9_above_nonempty_witness :
    gtVal c9top.comp (c9cur.comp.addConst 5) = true ∧
    c9top ∈ setB c9grp c9cur 5 ∧ setB c9grp c9cur 5 ≠ [] ∧
    (subjectFindings c9grp c9top.comp 5 c9cur).isSome = true :=
  c9_above_nonempty c9grp c9top c9cur 5
    (by decide) (by decide) (by decide) (by decide) (by decide)

/-- C10: for every cohort with all-numeric compensations and every
non-negative threshold, the first record of the evaluated cohort — the top
earner after descending ranking — carries an empty findings field: its gap
to the top is 0, which never exceeds a non-negative threshold. -/
theorem c10_top_earner_no_finding (group : List Record) (t : ℤ)
    (out : List Record) (r : Record) (hnum : allNumeric group = true)
    (ht : 0 ≤ t) (h : evalGroup t group = some out)
    (hh : out.head? = some r) :
    r.payEquity = "" := by
  simp only [evalGroup] at h
  by_cases hlen : (sortDescComp group).length < 2
  · rw [if_pos hlen] at h
    obtain rfl := Option.some.inj h
    rcases hs : sortDescComp group with _ | ⟨top, rest⟩
    · rw [hs] at hh
      simp at hh
    · rw [hs] at hh
      simp only [List.map_cons, List.head?_cons, Option.some.injEq] at hh
      rw [← hh]
  · rw [if_neg hlen] at h
    rcases hs : sortDescComp group with _ | ⟨top, rest⟩
    · rw [hs] at h
      obtain rfl := Option.some.inj h
      simp at hh
    · rw [hs] at h
      obtain ⟨b, l2, hfb, hl2, rfl⟩ := traverseOption_cons_some _ _ _ _ h
      rw [List.head?_cons] at hh
      obtain rfl := Option.some.inj hh
      obtain ⟨s, hsf, hbr⟩ := Option.map_eq_some'.mp hfb
      have htopmem : top ∈ group := by
        rw [← mem_sortDescComp group top, hs]
        exact List.mem_cons_self _ _
      obtain ⟨q, hq⟩ := allNumeric_comp group hnum top htopmem
      have hcond : leConst (top.comp.sub top.comp) t = true := by
        rw [hq]
        simp only [CompVal.sub, leConst, CompVal.toNum, decide_eq_true_eq]
        omega
      rw [subjectFindings, if_pos hcond] at hsf
      obtain rfl := Option.some.inj hsf
      rw [← hbr]

theorem c10_top_earner_no_finding_witness :
    (empJD "2" (.num 20) "M" "E").payEquity = "" :=
  c10_top_earner_no_finding c10grp 0 c10out (empJD "2" (.num 20) "M" "E")
    (by decide) (by decide) (by decide) (by decide)
